import Mathlib

/-!
Verification development for the notifier incremental crawl engine.

The embedded code is `src/notifier/newposts.py` (feed delta, crawl
planning, per-pass deduplication and the crawl executor) and
`src/notifier/database/driver.py` (the `try_cache` helper).  Python
values are modelled shallowly: identifier strings stay `String`,
optional post ids become `Option String`, the untyped dicts yielded by
the remote thread stream become one record type carrying every key the
code reads, and the mutable per-pass seen-lists become an explicit
`SeenState` threaded through the executor.
-/

namespace Notifier

/-- A crawl task `(thread_id, post_id)`: a `none` post id means "fetch the
entire thread", `some p` means "fetch only the page containing post `p`"
(newposts.py lines 45-52). -/
abbrev CrawlTask := String × Option String

/-- One element of the remote thread stream.  The Python generator yields
dicts; the element at index 0 is read as thread metadata (keys
`category_id`, `category_name`, `title`, `creator_username`,
`created_timestamp`) and every later element as a post (key `id`).  A
single record type with all of those keys models the untyped dict. -/
structure Item where
  category_id : String
  category_name : String
  title : String
  creator_username : String
  created_timestamp : Int
  id : String
deriving DecidableEq, Repr

/-- The remote source `connection.thread(wiki_id, thread_id, post_id)`
(newposts.py line 96).  It yields the listed items in order; the `Bool`
is `true` when the generator raises after yielding them (a mid-stream
remote failure). -/
abbrev Remote := String → String → Option String → List Item × Bool

/-- Storage writes performed by the executor (newposts.py lines 109-122). -/
inductive StoreEvent where
  | store_thread (wiki_id : String) (category : String × String)
      (thread : String × String × String × Int)
  | store_post (item : Item)
deriving DecidableEq, Repr

/-- The per-pass dedup state: the two seen-lists of newposts.py lines
58-59, appended to during execution. -/
structure SeenState where
  posts_already_seen : List String
  full_threads_already_seen : List String
deriving DecidableEq, Repr

/-- The state at the start of a site's pass: both seen-lists empty
(newposts.py lines 58-59). -/
def initState : SeenState := ⟨[], []⟩

/-- The skip predicate of newposts.py lines 66 and 78: a full-thread task
is skipped when its thread is in `full_threads_already_seen`; a
single-page task is skipped when its post is in `posts_already_seen`. -/
def shouldSkip (task : CrawlTask) (st : SeenState) : Bool :=
  match task.2 with
  | none => decide (task.1 ∈ st.full_threads_already_seen)
  | some post_id => decide (post_id ∈ st.posts_already_seen)

/-- The storage writes made while consuming one task's stream (newposts.py
lines 95-122): the element at index 0 is stored as thread metadata via
`store_thread`, every later element as a post via `store_post`. -/
def processItems (wiki_id thread_id : String) : List Item → List StoreEvent
  | [] => []
  | meta :: posts =>
      StoreEvent.store_thread wiki_id (meta.category_id, meta.category_name)
          (thread_id, meta.title, meta.creator_username,
            meta.created_timestamp)
        :: posts.map StoreEvent.store_post

/-- The post ids appended to `posts_already_seen` while consuming a
stream: the id of every element after index 0 (newposts.py line 124). -/
def tailIds : List Item → List String
  | [] => []
  | _ :: posts => posts.map Item.id

/-- Execution of one non-skipped task (newposts.py lines 95-127): consume
the stream, appending each post id to `posts_already_seen` as it is
stored; if the stream raised mid-way the function aborts there (the
`true` flag), otherwise a full-thread task additionally appends its
thread id to `full_threads_already_seen`. -/
def executeTask (remote : Remote) (wiki_id : String) (t : CrawlTask)
    (st : SeenState) : List StoreEvent × Bool × SeenState :=
  let r := remote wiki_id t.1 t.2
  let st1 : SeenState :=
    ⟨st.posts_already_seen ++ tailIds r.1, st.full_threads_already_seen⟩
  if r.2 then
    (processItems wiki_id t.1 r.1, true, st1)
  else
    (processItems wiki_id t.1 r.1, false,
      if t.2.isNone then
        ⟨st1.posts_already_seen, st1.full_threads_already_seen ++ [t.1]⟩
      else st1)

/-- Outcome of one planned task within the executor loop. -/
inductive TaskStatus where
  | skipped
  | executed
  | failed
deriving DecidableEq, Repr

/-- One step of the executor trace: the task, what happened to it, the
dedup state consulted for it, and the storage writes it made. -/
structure TraceEntry where
  task : CrawlTask
  status : TaskStatus
  stateBefore : SeenState
  events : List StoreEvent
deriving DecidableEq, Repr

/-- The executor loop of newposts.py lines 65-151: process the planned
tasks in order; a skipped task leaves the state unchanged; a mid-stream
remote failure propagates out of the loop, so the trace ends there and
no later task is processed. -/
def runTasks (remote : Remote) (wiki_id : String) :
    List CrawlTask → SeenState → List TraceEntry
  | [], _ => []
  | t :: ts, st =>
    if shouldSkip t st then
      ⟨t, .skipped, st, []⟩ :: runTasks remote wiki_id ts st
    else
      let e := executeTask remote wiki_id t st
      if e.2.1 then
        [⟨t, .failed, st, e.1⟩]
      else
        ⟨t, .executed, st, e.1⟩ :: runTasks remote wiki_id ts e.2.2

/-- The task list built in newposts.py lines 49-52, before sorting: one
task per entry, with a `none` post id exactly when the entry's thread is
in `new_thread_ids`. -/
def tasksOf (new_thread_ids : List String)
    (new_posts : List (String × String)) : List CrawlTask :=
  new_posts.map
    (fun p => (p.1, if p.1 ∈ new_thread_ids then none else some p.2))

/-- The comparison induced by the sort key of newposts.py line 55
(`page[1] is not None`, i.e. `Option.isSome`, ordered `false < true`). -/
def planLE (a b : CrawlTask) : Bool := !a.2.isSome || b.2.isSome

/-- The planner of newposts.py lines 49-55: build the task list, then
sort it with Python's `list.sort` on the key `page[1] is not None`.
`list.sort` is guaranteed stable, and a stable sort on a two-valued key
is exactly the stable partition: the tasks whose key is `false`
(full-thread tasks) in their original order, followed by the tasks whose
key is `true` (single-page tasks) in their original order.  The lemma
`mergeSort_planLE_eq` below proves this partition equal to the stable
`List.mergeSort` on the same key. -/
def plan (new_thread_ids : List String)
    (new_posts : List (String × String)) : List CrawlTask :=
  (tasksOf new_thread_ids new_posts).filter (fun t => !t.2.isSome)
    ++ (tasksOf new_thread_ids new_posts).filter (fun t => t.2.isSome)

/-- Modelled from the spec: `StorageQuery.unknownPosts`
(`database.find_new_posts`, called at newposts.py line 37, lives in the
database driver package, which is not part of the embedded sources).
Per spec section 6 it returns "the subset of the input not already
recorded"; the storage state is the list `known` of recorded post ids. -/
def find_new_posts (known : List String) (ids : List String) : List String :=
  ids.filter (fun i => decide (i ∉ known))

/-- Modelled from the spec: `StorageQuery.unknownThreads`
(`database.find_new_threads`, called at newposts.py line 42, also not
part of the embedded sources): the subset of the input thread ids not
already recorded, given the list `known` of recorded thread ids. -/
def find_new_threads (known : List String) (ids : List String) : List String :=
  ids.filter (fun i => decide (i ∉ known))

/-- The delta filter of newposts.py lines 37-40: query storage for the
unknown post ids, then keep each entry whose post id is NOT in that
result (`post[1] not in new_post_ids`). -/
def delta_new_posts (known_posts : List String)
    (rss_entries : List (String × String)) : List (String × String) :=
  let new_post_ids := find_new_posts known_posts (rss_entries.map Prod.snd)
  rss_entries.filter (fun post => decide (post.2 ∉ new_post_ids))

/-- One site's pass, `fetch_posts_with_context` (newposts.py lines
25-151): delta-filter the feed entries, compute the new-thread set, plan,
and run the executor from an empty `SeenState`. -/
def fetch_posts_with_context (remote : Remote)
    (known_posts known_threads : List String) (wiki_id : String)
    (rss_entries : List (String × String)) : List TraceEntry :=
  let new_posts := delta_new_posts known_posts rss_entries
  let new_thread_ids := find_new_threads known_threads (new_posts.map Prod.fst)
  runTasks remote wiki_id (plan new_thread_ids new_posts) initState

/-- A pass failed when its executor trace ends in a mid-stream remote
failure, which propagates out of `fetch_posts_with_context`. -/
def passFailed (tr : List TraceEntry) : Bool :=
  tr.any (fun e => e.status == TaskStatus.failed)

/-- The multi-site driver `get_new_posts` (newposts.py lines 18-22): call
the pass for each supported wiki in order.  There is no exception
handling in the loop, so a failing pass propagates: the result lists the
per-wiki traces of the wikis actually reached, ending at the first wiki
whose pass failed. -/
def get_new_posts (remote : Remote)
    (known_posts known_threads : String → List String)
    (rss_entries : String → List (String × String)) :
    List String → List (String × List TraceEntry)
  | [] => []
  | w :: wikis =>
    let tr := fetch_posts_with_context remote (known_posts w)
      (known_threads w) w (rss_entries w)
    if passFailed tr then
      [(w, tr)]
    else
      (w, tr) :: get_new_posts remote known_posts known_threads
        rss_entries wikis

/-- The Python error raised by reading a local variable that was never
assigned. -/
inductive PyError where
  | unboundLocal
deriving DecidableEq, Repr

/-- `fetch_new_posts_rss` (newposts.py lines 169-184).  `feedparser.parse`
either returns a feed (a list of entry permalinks, each mapped through
`parse_thread_url`, kept abstract as a parameter) or raises.  The
`except` block only logs: when `parse` raised, the local `feed` was
never assigned, so the `return` statement's read of `feed["entries"]`
raises `UnboundLocalError`. -/
def fetch_new_posts_rss (parse_thread_url : String → String × String)
    (parse_result : Except Unit (List String)) :
    Except PyError (List (String × String)) :=
  match parse_result with
  | .ok feed => .ok (feed.map parse_thread_url)
  | .error _ => .error .unboundLocal

/-- `try_cache` (driver.py lines 13-53), for a getter that either returns
a value of `α` or raises an exception of `ε`; `catch` is the membership
test of the caught-exception tuple (the Python default `catch = None`
becomes `Exception`, i.e. `fun e => true`).  The result records the
arguments of the `store` calls made, in order, and the exception that
propagated out, if any.  Mirroring the source: `value` starts as
`do_not_store`, the `try` block overwrites it on success, a caught
exception leaves it unchanged, an uncaught one propagates before the
final comparison; `store(value)` runs iff `value != do_not_store`. -/
def try_cache [DecidableEq α] (get : Except ε α) (do_not_store : α)
    (catches : ε → Bool) : List α × Option ε :=
  match get with
  | .ok v => (if v ≠ do_not_store then [v] else [], none)
  | .error e =>
      if catches e then
        (if do_not_store ≠ do_not_store then [do_not_store] else [], none)
      else ([], some e)

/-- A concrete thread-metadata stream element, used in witnesses and
counterexamples. -/
def exMeta : Item := ⟨"7", "general", "Test thread", "alice", 100, "m0"⟩

/-- A concrete post stream element with id `pa`. -/
def exPostA : Item := ⟨"0", "x", "x", "bob", 5, "pa"⟩

/-- A concrete post stream element with id `p9`. -/
def exPostB : Item := ⟨"0", "x", "x", "carol", 6, "p9"⟩

/-- A remote source that never fails: every request yields the metadata
followed by the posts `pa` and `p9`. -/
def exRemote : Remote := fun _ _ _ => ([exMeta, exPostA, exPostB], false)

/-- A remote source that raises right after yielding thread `t1`'s
metadata, and succeeds on every other thread. -/
def exFailRemote : Remote := fun _ tid _ =>
  if tid = "t1" then ([exMeta], true) else ([exMeta, exPostA], false)

/-- The trace entry produced by executing `("t1", none)` against
`exRemote` from the empty state. -/
def exExecEntry : TraceEntry :=
  ⟨("t1", none), TaskStatus.executed, initState,
    processItems "w" "t1" [exMeta, exPostA, exPostB]⟩

/-- The skipped trace entry for a second full-thread task on `t1`. -/
def exSkipEntryThread : TraceEntry :=
  ⟨("t1", none), TaskStatus.skipped, ⟨["pa", "p9"], ["t1"]⟩, []⟩

/-- The skipped trace entry for a later single-page task on post `p9`. -/
def exSkipEntryPost : TraceEntry :=
  ⟨("t2", some "p9"), TaskStatus.skipped, ⟨["pa", "p9"], ["t1"]⟩, []⟩

theorem planLE_trans (a b c : CrawlTask) :
    planLE a b = true → planLE b c = true → planLE a c = true := by
  cases ha : a.2.isSome <;> cases hb : b.2.isSome <;> cases hc : c.2.isSome <;>
    simp [planLE, ha, hb, hc]

theorem planLE_total (a b : CrawlTask) :
    (planLE a b || planLE b a) = true := by
  cases ha : a.2.isSome <;> cases hb : b.2.isSome <;>
    simp [planLE, ha, hb]

/-- A list that is sorted for `planLE` is its `false`-key part followed by
its `true`-key part. -/
theorem sorted_planLE_eq_partition (l : List CrawlTask)
    (h : List.Pairwise (fun a b => planLE a b = true) l) :
    l = l.filter (fun t => !t.2.isSome) ++ l.filter (fun t => t.2.isSome) := by
  induction l with
  | nil => rfl
  | cons a l ih =>
    rcases List.pairwise_cons.mp h with ⟨ha, hl⟩
    cases hsome : a.2.isSome with
    | false =>
      have e1 : List.filter (fun t => !t.2.isSome) (a :: l)
          = a :: List.filter (fun t => !t.2.isSome) l := by
        rw [List.filter_cons, if_pos (by simp [hsome])]
      have e2 : List.filter (fun t => t.2.isSome) (a :: l)
          = List.filter (fun t => t.2.isSome) l := by
        rw [List.filter_cons, if_neg (by simp [hsome])]
      rw [e1, e2, List.cons_append]
      exact congrArg (a :: ·) (ih hl)
    | true =>
      have hall : ∀ b ∈ l, b.2.isSome = true := by
        intro b hb
        have := ha b hb
        simpa [planLE, hsome] using this
      have h1 : l.filter (fun t => !t.2.isSome) = [] := by
        rw [List.filter_eq_nil_iff]
        intro b hb
        simp [hall b hb]
      have h2 : l.filter (fun t => t.2.isSome) = l := by
        rw [List.filter_eq_self]
        intro b hb
        simp [hall b hb]
      have e1 : List.filter (fun t => !t.2.isSome) (a :: l) = [] := by
        rw [List.filter_cons, if_neg (by simp [hsome])]
        exact h1
      have e2 : List.filter (fun t => t.2.isSome) (a :: l) = a :: l := by
        rw [List.filter_cons, if_pos (by simp [hsome])]
        rw [h2]
      rw [e1, e2, List.nil_append]

/-- Stable-sorting any task list by the key of newposts.py line 55 yields
the stable partition: full-thread tasks first, each group in input
order. -/
theorem mergeSort_planLE_eq (l : List CrawlTask) :
    l.mergeSort planLE
      = l.filter (fun t => !t.2.isSome) ++ l.filter (fun t => t.2.isSome) := by
  have hperm : (l.mergeSort planLE).Perm l := List.mergeSort_perm l planLE
  have hsorted : List.Pairwise (fun a b => planLE a b = true)
      (l.mergeSort planLE) :=
    List.sorted_mergeSort planLE_trans planLE_total l
  have keyfilter : ∀ p : CrawlTask → Bool,
      (∀ a b : CrawlTask, p a = true → p b = true → planLE a b = true) →
      (l.mergeSort planLE).filter p = l.filter p := by
    intro p hp
    have hpair : List.Pairwise (fun a b => planLE a b = true) (l.filter p) :=
      List.pairwise_of_forall_mem_list (fun a ha b hb =>
        hp a b (List.of_mem_filter ha) (List.of_mem_filter hb))
    have hsub : (l.filter p).Sublist (l.mergeSort planLE) :=
      List.sublist_mergeSort planLE_trans planLE_total hpair
        (List.filter_sublist l)
    have hsub2 : (l.filter p).Sublist ((l.mergeSort planLE).filter p) := by
      have := List.Sublist.filter p hsub
      rwa [List.filter_filter, List.filter_congr (fun a ha => by
        rw [Bool.and_self])] at this
    have hlen : ((l.mergeSort planLE).filter p).length
        = (l.filter p).length :=
      (hperm.filter p).length_eq
    exact (List.Sublist.eq_of_length hsub2 hlen.symm).symm
  have h1 : (l.mergeSort planLE).filter (fun t => !t.2.isSome)
      = l.filter (fun t => !t.2.isSome) := by
    refine keyfilter _ (fun a b ha _ => ?_)
    have : a.2.isSome = false := by
      cases h : a.2.isSome
      · rfl
      · rw [h] at ha; exact absurd ha (by simp)
    simp [planLE, this]
  have h2 : (l.mergeSort planLE).filter (fun t => t.2.isSome)
      = l.filter (fun t => t.2.isSome) := by
    refine keyfilter _ (fun a b _ hb => ?_)
    simp [planLE, hb]
  calc l.mergeSort planLE
      = (l.mergeSort planLE).filter (fun t => !t.2.isSome)
          ++ (l.mergeSort planLE).filter (fun t => t.2.isSome) :=
        sorted_planLE_eq_partition _ hsorted
    _ = l.filter (fun t => !t.2.isSome) ++ l.filter (fun t => t.2.isSome) := by
        rw [h1, h2]

theorem runTasks_nil (remote : Remote) (w : String) (st : SeenState) :
    runTasks remote w [] st = [] := rfl

theorem runTasks_cons (remote : Remote) (w : String) (t : CrawlTask)
    (ts : List CrawlTask) (st : SeenState) :
    runTasks remote w (t :: ts) st
      = if shouldSkip t st then
          ⟨t, .skipped, st, []⟩ :: runTasks remote w ts st
        else if (executeTask remote w t st).2.1 then
          [⟨t, .failed, st, (executeTask remote w t st).1⟩]
        else
          ⟨t, .executed, st, (executeTask remote w t st).1⟩
            :: runTasks remote w ts (executeTask remote w t st).2.2 := rfl

/-- The posts seen-list after a task: the previous one plus the ids of
the stream's tail, whether or not the stream failed. -/
theorem executeTask_posts (remote : Remote) (w : String) (t : CrawlTask)
    (st : SeenState) :
    ((executeTask remote w t st).2.2).posts_already_seen
      = st.posts_already_seen ++ tailIds (remote w t.1 t.2).1 := by
  rcases hr : remote w t.1 t.2 with ⟨items, fl⟩
  unfold executeTask
  rw [hr]
  cases fl <;> cases h : t.2.isNone <;> simp [h]

/-- The full-thread seen-list only ever grows across a task. -/
theorem executeTask_full_mono (remote : Remote) (w : String) (t : CrawlTask)
    (st : SeenState) (T : String)
    (hT : T ∈ st.full_threads_already_seen) :
    T ∈ ((executeTask remote w t st).2.2).full_threads_already_seen := by
  rcases hr : remote w t.1 t.2 with ⟨items, fl⟩
  unfold executeTask
  rw [hr]
  cases fl <;> cases h : t.2.isNone <;> simp [h, hT, List.mem_append]

/-- A completed full-thread task appends its thread id to the full-thread
seen-list (newposts.py lines 125-127). -/
theorem executeTask_full_of_none (remote : Remote) (w : String)
    (t : CrawlTask) (st : SeenState)
    (hfail : (remote w t.1 t.2).2 = false) (hnone : t.2 = none) :
    ((executeTask remote w t st).2.2).full_threads_already_seen
      = st.full_threads_already_seen ++ [t.1] := by
  rcases hr : remote w t.1 t.2 with ⟨items, fl⟩
  rw [hr] at hfail
  unfold executeTask
  rw [hr]
  simp at hfail
  simp [hfail, hnone]

/-- The storage writes of a task are those of its stream's yielded items,
whether or not the stream failed afterwards. -/
theorem executeTask_events (remote : Remote) (w : String) (t : CrawlTask)
    (st : SeenState) :
    (executeTask remote w t st).1
      = processItems w t.1 (remote w t.1 t.2).1 := by
  rcases hr : remote w t.1 t.2 with ⟨items, fl⟩
  unfold executeTask
  rw [hr]
  cases fl <;> cases h : t.2.isNone <;> simp [h]

/-- A task reports failure exactly when its remote stream raised. -/
theorem executeTask_failflag (remote : Remote) (w : String) (t : CrawlTask)
    (st : SeenState) :
    (executeTask remote w t st).2.1 = (remote w t.1 t.2).2 := by
  rcases hr : remote w t.1 t.2 with ⟨items, fl⟩
  unfold executeTask
  rw [hr]
  cases fl <;> cases h : t.2.isNone <;> simp [h]

/-- Invariant: once a thread id `T` is in the full-thread seen-list, any
task in the rest of the pass that targets `T` with a `none` post id is
skipped — provided every remaining task on `T` indeed has a `none` post
id (which the planner guarantees, see `plan_task_none_iff`). -/
theorem skip_after_full_thread (remote : Remote) (w : String) (T : String) :
    ∀ (ts : List CrawlTask) (st : SeenState),
    T ∈ st.full_threads_already_seen →
    (∀ t ∈ ts, t.1 = T → t.2 = none) →
    ∀ e ∈ runTasks remote w ts st, e.task.1 = T →
      shouldSkip e.task e.stateBefore = true ∧ e.status = .skipped := by
  intro ts
  induction ts with
  | nil => intro st _ _ e he; simp [runTasks_nil] at he
  | cons t ts ih =>
    intro st hT hall e he heT
    rw [runTasks_cons] at he
    by_cases hskip : shouldSkip t st
    · rw [if_pos hskip] at he
      rcases List.mem_cons.mp he with he | he
      · subst he; exact ⟨hskip, rfl⟩
      · exact ih st hT (fun t' ht' => hall t' (List.mem_cons_of_mem t ht'))
          e he heT
    · rw [if_neg hskip] at he
      have hcontr : e.task.1 = T → e.task = t → False := by
        intro h1 h2
        have hnone : t.2 = none := hall t (List.mem_cons_self t ts)
          (by rw [← h2, h1])
        have : shouldSkip t st = true := by
          have ht1 : t.1 = T := by rw [← h2, h1]
          simp [shouldSkip, hnone, ht1, hT]
        exact hskip this
      by_cases hfl : (executeTask remote w t st).2.1
      · rw [if_pos hfl] at he
        rcases List.mem_singleton.mp he with rfl
        exact absurd rfl (fun h => hcontr heT h)
      · rw [if_neg hfl] at he
        rcases List.mem_cons.mp he with he | he
        · subst he; exact absurd rfl (fun h => hcontr heT h)
        · refine ih ((executeTask remote w t st).2.2)
            (executeTask_full_mono remote w t st T hT)
            (fun t' ht' => hall t' (List.mem_cons_of_mem t ht')) e he heT

/-- Invariant: once a post id `P` is in the posts seen-list, any task in
the rest of the pass whose post id is `P` is skipped, whatever thread it
targets. -/
theorem skip_after_post_seen (remote : Remote) (w : String) (P : String) :
    ∀ (ts : List CrawlTask) (st : SeenState),
    P ∈ st.posts_already_seen →
    ∀ e ∈ runTasks remote w ts st, e.task.2 = some P →
      shouldSkip e.task e.stateBefore = true ∧ e.status = .skipped := by
  intro ts
  induction ts with
  | nil => intro st _ e he; simp [runTasks_nil] at he
  | cons t ts ih =>
    intro st hP e he heP
    rw [runTasks_cons] at he
    by_cases hskip : shouldSkip t st
    · rw [if_pos hskip] at he
      rcases List.mem_cons.mp he with he | he
      · subst he; exact ⟨hskip, rfl⟩
      · exact ih st hP e he heP
    · rw [if_neg hskip] at he
      have hcontr : e.task.2 = some P → e.task = t → False := by
        intro h1 h2
        have : shouldSkip t st = true := by
          have ht2 : t.2 = some P := by rw [← h2, h1]
          simp [shouldSkip, ht2, hP]
        exact hskip this
      have hPmono : P ∈ ((executeTask remote w t st).2.2).posts_already_seen := by
        rw [executeTask_posts]
        exact List.mem_append_left _ hP
      by_cases hfl : (executeTask remote w t st).2.1
      · rw [if_pos hfl] at he
        rcases List.mem_singleton.mp he with rfl
        exact absurd rfl (fun h => hcontr heP h)
      · rw [if_neg hfl] at he
        rcases List.mem_cons.mp he with he | he
        · subst he; exact absurd rfl (fun h => hcontr heP h)
        · exact ih ((executeTask remote w t st).2.2) hPmono e he heP

/-- Every task of the planner's output carries a `none` post id exactly
when its thread is in the new-thread set: the null-ness of a planned
task depends only on its thread id (newposts.py line 50). -/
theorem plan_task_none_iff (new_thread_ids : List String)
    (new_posts : List (String × String)) :
    ∀ t ∈ plan new_thread_ids new_posts,
      (t.2 = none ↔ t.1 ∈ new_thread_ids) := by
  intro t ht
  have htasks : t ∈ tasksOf new_thread_ids new_posts := by
    rcases List.mem_append.mp ht with h | h
    · exact List.mem_of_mem_filter h
    · exact List.mem_of_mem_filter h
  rcases List.mem_map.mp htasks with ⟨p, _, rfl⟩
  by_cases hmem : p.1 ∈ new_thread_ids <;> simp [hmem]

/-- Core of claim C2, for any task list in which the null-ness of a task
is a function of its thread id (as the planner guarantees): after an
executed full-thread task, every later trace entry on the same thread is
skipped. -/
theorem runTasks_none_blocks (remote : Remote) (w : String)
    (nt : List String) :
    ∀ (ts : List CrawlTask) (st : SeenState),
    (∀ t ∈ ts, (t.2 = none ↔ t.1 ∈ nt)) →
    ∀ (i j : Nat) (ei ej : TraceEntry), i < j →
    (runTasks remote w ts st)[i]? = some ei →
    (runTasks remote w ts st)[j]? = some ej →
    ei.status = .executed → ei.task.2 = none → ej.task.1 = ei.task.1 →
    shouldSkip ej.task ej.stateBefore = true ∧ ej.status = .skipped := by
  intro ts
  induction ts with
  | nil =>
    intro st _ i j ei ej _ hi
    rw [runTasks_nil, List.getElem?_nil] at hi
    exact absurd hi (by simp)
  | cons t ts ih =>
    intro st hunif i j ei ej hij hi hj hexec hnone hthread
    have hunif' : ∀ t' ∈ ts, (t'.2 = none ↔ t'.1 ∈ nt) :=
      fun t' ht' => hunif t' (List.mem_cons_of_mem t ht')
    rw [runTasks_cons] at hi hj
    by_cases hskip : shouldSkip t st = true
    · rw [if_pos hskip] at hi hj
      cases j with
      | zero => exact absurd hij (Nat.not_lt_zero i)
      | succ k =>
        rw [List.getElem?_cons_succ] at hj
        cases i with
        | zero =>
          rw [List.getElem?_cons_zero] at hi
          cases Option.some.inj hi
          exact TaskStatus.noConfusion hexec
        | succ m =>
          rw [List.getElem?_cons_succ] at hi
          exact ih st hunif' m k ei ej (Nat.lt_of_succ_lt_succ hij)
            hi hj hexec hnone hthread
    · rw [if_neg hskip] at hi hj
      by_cases hfl : (executeTask remote w t st).2.1 = true
      · rw [if_pos hfl] at hj
        cases j with
        | zero => exact absurd hij (Nat.not_lt_zero i)
        | succ k =>
          rw [List.getElem?_cons_succ, List.getElem?_nil] at hj
          exact absurd hj (by simp)
      · rw [if_neg hfl] at hi hj
        cases j with
        | zero => exact absurd hij (Nat.not_lt_zero i)
        | succ k =>
          rw [List.getElem?_cons_succ] at hj
          cases i with
          | zero =>
            rw [List.getElem?_cons_zero] at hi
            cases Option.some.inj hi
            have hrfail : (remote w t.1 t.2).2 = false := by
              rw [← executeTask_failflag remote w t st]
              cases h : (executeTask remote w t st).2.1
              · rfl
              · exact absurd h hfl
            have hT : t.1 ∈
                ((executeTask remote w t st).2.2).full_threads_already_seen := by
              rw [executeTask_full_of_none remote w t st hrfail hnone]
              exact List.mem_append_right _ (List.mem_singleton.mpr rfl)
            have hall : ∀ t' ∈ ts, t'.1 = t.1 → t'.2 = none := by
              intro t' ht' h1
              have htnt : t.1 ∈ nt :=
                (hunif t (List.mem_cons_self t ts)).mp hnone
              exact (hunif' t' ht').mpr (h1 ▸ htnt)
            exact skip_after_full_thread remote w t.1 ts
              ((executeTask remote w t st).2.2) hT hall ej
              (List.getElem?_mem hj) hthread
          | succ m =>
            rw [List.getElem?_cons_succ] at hi
            exact ih ((executeTask remote w t st).2.2) hunif' m k ei ej
              (Nat.lt_of_succ_lt_succ hij) hi hj hexec hnone hthread

/-- Core of claim C7, for any task list: after an executed task whose
stream yielded a post with id `P`, every later trace entry whose task
targets post `P` is skipped, whatever thread it names. -/
theorem runTasks_post_blocks (remote : Remote) (w : String) (P : String) :
    ∀ (ts : List CrawlTask) (st : SeenState),
    ∀ (i j : Nat) (ei ej : TraceEntry), i < j →
    (runTasks remote w ts st)[i]? = some ei →
    (runTasks remote w ts st)[j]? = some ej →
    ei.status = .executed →
    P ∈ tailIds (remote w ei.task.1 ei.task.2).1 →
    ej.task.2 = some P →
    shouldSkip ej.task ej.stateBefore = true ∧ ej.status = .skipped := by
  intro ts
  induction ts with
  | nil =>
    intro st i j ei ej _ hi
    rw [runTasks_nil, List.getElem?_nil] at hi
    exact absurd hi (by simp)
  | cons t ts ih =>
    intro st i j ei ej hij hi hj hexec hfetched htarget
    rw [runTasks_cons] at hi hj
    by_cases hskip : shouldSkip t st = true
    · rw [if_pos hskip] at hi hj
      cases j with
      | zero => exact absurd hij (Nat.not_lt_zero i)
      | succ k =>
        rw [List.getElem?_cons_succ] at hj
        cases i with
        | zero =>
          rw [List.getElem?_cons_zero] at hi
          cases Option.some.inj hi
          exact TaskStatus.noConfusion hexec
        | succ m =>
          rw [List.getElem?_cons_succ] at hi
          exact ih st m k ei ej (Nat.lt_of_succ_lt_succ hij)
            hi hj hexec hfetched htarget
    · rw [if_neg hskip] at hi hj
      by_cases hfl : (executeTask remote w t st).2.1 = true
      · rw [if_pos hfl] at hj
        cases j with
        | zero => exact absurd hij (Nat.not_lt_zero i)
        | succ k =>
          rw [List.getElem?_cons_succ, List.getElem?_nil] at hj
          exact absurd hj (by simp)
      · rw [if_neg hfl] at hi hj
        cases j with
        | zero => exact absurd hij (Nat.not_lt_zero i)
        | succ k =>
          rw [List.getElem?_cons_succ] at hj
          cases i with
          | zero =>
            rw [List.getElem?_cons_zero] at hi
            cases Option.some.inj hi
            have hP : P ∈
                ((executeTask remote w t st).2.2).posts_already_seen := by
              rw [executeTask_posts]
              exact List.mem_append_right _ hfetched
            exact skip_after_post_seen remote w P ts
              ((executeTask remote w t st).2.2) hP ej
              (List.getElem?_mem hj) htarget
          | succ m =>
            rw [List.getElem?_cons_succ] at hi
            exact ih ((executeTask remote w t st).2.2) m k ei ej
              (Nat.lt_of_succ_lt_succ hij) hi hj hexec hfetched htarget

/-- C1: evaluation of the delta filter at concrete inputs.  With entries
`[("t1", "p1")]` and a storage that knows nothing, `find_new_posts`
reports `p1` unknown, yet the filter of newposts.py line 40
(`post[1] not in new_post_ids`) drops the entry; with storage already
knowing `p2`, the already-recorded entry `("t2", "p2")` is kept.  The
code keeps exactly the complement of what the claim — and the source's
own comment, "Remove posts that are already recorded" — requires. -/
theorem delta_filter_keeps_known_posts :
    find_new_posts [] ["p1"] = ["p1"]
    ∧ delta_new_posts [] [("t1", "p1")] = []
    ∧ find_new_posts ["p2"] ["p2"] = []
    ∧ delta_new_posts ["p2"] [("t2", "p2")] = [("t2", "p2")] := by
  decide

/-- C2: within one site's pass — the executor run on the planner's output
from the empty dedup state — once a full-thread task on a thread has
been executed (recording the thread in the full-thread seen-list), every
later task on that thread in the trace is answered `true` by
`shouldSkip` and is skipped, so no task for the thread runs again in the
pass.  The planner gives every task on that thread a null post id, so
this covers all later tasks on the thread whatever their post ids. -/
theorem pass_skips_thread_after_full_fetch (remote : Remote)
    (wiki_id : String) (new_thread_ids : List String)
    (new_posts : List (String × String)) (i j : Nat) (ei ej : TraceEntry)
    (hij : i < j)
    (hi : (runTasks remote wiki_id (plan new_thread_ids new_posts)
        initState)[i]? = some ei)
    (hj : (runTasks remote wiki_id (plan new_thread_ids new_posts)
        initState)[j]? = some ej)
    (hexec : ei.status = TaskStatus.executed)
    (hnone : ei.task.2 = none)
    (hthread : ej.task.1 = ei.task.1) :
    shouldSkip ej.task ej.stateBefore = true
    ∧ ej.status = TaskStatus.skipped :=
  runTasks_none_blocks remote wiki_id new_thread_ids
    (plan new_thread_ids new_posts) initState
    (plan_task_none_iff new_thread_ids new_posts) i j ei ej hij hi hj
    hexec hnone hthread

theorem pass_skips_thread_after_full_fetch_witness :
    shouldSkip exSkipEntryThread.task exSkipEntryThread.stateBefore = true
    ∧ exSkipEntryThread.status = TaskStatus.skipped :=
  pass_skips_thread_after_full_fetch exRemote "w" ["t1"]
    [("t1", "pa"), ("t1", "pb")] 0 1 exExecEntry exSkipEntryThread
    (by decide) (by decide) (by decide) (by decide) (by decide) (by decide)

/-- C3: the planner's output is the stable sort of the emitted task list
on the boolean "has post id": it equals the stable sort
`List.mergeSort` with that key; every task with a non-null post id is
followed only by tasks with non-null post ids, so every null-post task
precedes every non-null-post task; and each group keeps the relative
order of the emitted (pre-sort) task list.  `plan` is a Lean function of
its input, so the output is deterministic. -/
theorem plan_stable_sort_spec (new_thread_ids : List String)
    (new_posts : List (String × String)) :
    plan new_thread_ids new_posts
      = (tasksOf new_thread_ids new_posts).mergeSort planLE
    ∧ (∀ (i j : Nat) (ei ej : CrawlTask), i < j →
        (plan new_thread_ids new_posts)[i]? = some ei →
        (plan new_thread_ids new_posts)[j]? = some ej →
        ei.2.isSome = true → ej.2.isSome = true)
    ∧ (plan new_thread_ids new_posts).filter (fun t => !t.2.isSome)
        = (tasksOf new_thread_ids new_posts).filter (fun t => !t.2.isSome)
    ∧ (plan new_thread_ids new_posts).filter (fun t => t.2.isSome)
        = (tasksOf new_thread_ids new_posts).filter (fun t => t.2.isSome) := by
  have hplan : plan new_thread_ids new_posts
      = (tasksOf new_thread_ids new_posts).mergeSort planLE :=
    (mergeSort_planLE_eq _).symm
  refine ⟨hplan, ?_, ?_, ?_⟩
  · intro i j ei ej hij hi hj hsome
    have hsorted : List.Pairwise (fun a b => planLE a b = true)
        (plan new_thread_ids new_posts) := by
      rw [hplan]
      exact List.sorted_mergeSort planLE_trans planLE_total _
    rw [List.getElem?_eq_some] at hi hj
    rcases hi with ⟨hilen, hie⟩
    rcases hj with ⟨hjlen, hje⟩
    have hle := List.pairwise_iff_getElem.mp hsorted i j hilen hjlen hij
    rw [hie, hje] at hle
    simpa [planLE, hsome] using hle
  · simp [plan, List.filter_append, List.filter_filter, Bool.and_self,
      Bool.not_and_self, List.filter_false]
  · simp [plan, List.filter_append, List.filter_filter, Bool.and_self,
      Bool.not_and_self, List.filter_false]
    exact fun a b _ h => Option.isSome_iff_ne_none.mp h

theorem plan_stable_sort_spec_witness :
    ((("t2", some "p2") : CrawlTask).2).isSome = true :=
  (plan_stable_sort_spec [] [("t1", "p1"), ("t2", "p2")]).2.1 0 1
    ("t1", some "p1") ("t2", some "p2")
    (by decide) (by decide) (by decide) (by decide)

/-- C4 (amended): if the remote stream raises mid-task, the storage
writes for the prefix it had already yielded are made (and kept — there
is no rollback), but the exception propagates out of the executor loop:
the trace ends at the failing task, so the remaining planned tasks of
the pass are not processed. -/
theorem midstream_failure_aborts_pass (remote : Remote) (w : String)
    (t : CrawlTask) (rest : List CrawlTask) (st : SeenState)
    (items : List Item)
    (hskip : shouldSkip t st = false)
    (hr : remote w t.1 t.2 = (items, true)) :
    runTasks remote w (t :: rest) st
      = [⟨t, TaskStatus.failed, st, processItems w t.1 items⟩] := by
  rw [runTasks_cons, if_neg (by simp [hskip])]
  have hfl : (executeTask remote w t st).2.1 = true := by
    rw [executeTask_failflag, hr]
  rw [if_pos hfl]
  have hev : (executeTask remote w t st).1 = processItems w t.1 items := by
    rw [executeTask_events, hr]
  rw [hev]

theorem midstream_failure_aborts_pass_witness :
    runTasks exFailRemote "w" [("t1", none), ("t2", none)] initState
      = [⟨("t1", none), TaskStatus.failed, initState,
          processItems "w" "t1" [exMeta]⟩] :=
  midstream_failure_aborts_pass exFailRemote "w" ("t1", none)
    [("t2", none)] initState [exMeta] (by decide) (by decide)

/-- C4 (counterexample): with two planned full-thread tasks and a remote
that raises mid-stream on the first, the pass does NOT continue with the
remaining planned task: the trace contains only the failed first task,
whose persisted prefix is the thread metadata yielded before the raise.
The claim's "processing continues with the remaining planned tasks" fails
at this input. -/
theorem midstream_failure_reaches_no_later_task :
    (runTasks exFailRemote "w" [("t1", none), ("t2", none)]
        initState).map TraceEntry.task = [("t1", none)]
    ∧ (runTasks exFailRemote "w" [("t1", none), ("t2", none)]
        initState).map TraceEntry.events
      = [[StoreEvent.store_thread "w" ("7", "general")
            ("t1", "Test thread", "alice", 100)]] := by
  decide

/-- C5: evaluation of `fetch_new_posts_rss` at a failing feed fetch.  When
`feedparser.parse` raises, the `except` block only logs; the `return`
statement then reads the local `feed`, which was never assigned, so the
function raises `UnboundLocalError` instead of returning the empty
list the claim requires. -/
theorem fetch_new_posts_rss_crashes_on_feed_failure :
    fetch_new_posts_rss (fun s => (s, s)) (Except.error ())
      = Except.error PyError.unboundLocal
    ∧ fetch_new_posts_rss (fun s => (s, s)) (Except.error ())
      ≠ Except.ok [] :=
  ⟨rfl, fun h => Except.noConfusion h⟩

/-- C6 (amended): the driver loop of newposts.py lines 18-22 runs the
pass exactly once per supported wiki, in listed order, provided no pass
fails; when one wiki's pass raises, the exception propagates out of the
loop — there is no handler — and the remaining wikis' passes never run
(see the counterexample). -/
theorem get_new_posts_visits_each_wiki (remote : Remote)
    (known_posts known_threads : String → List String)
    (rss_entries : String → List (String × String)) :
    ∀ wikis : List String,
    (∀ w ∈ wikis,
      passFailed (fetch_posts_with_context remote (known_posts w)
        (known_threads w) w (rss_entries w)) = false) →
    (get_new_posts remote known_posts known_threads rss_entries
        wikis).map Prod.fst = wikis := by
  intro wikis
  induction wikis with
  | nil => intro _; rfl
  | cons w ws ih =>
    intro h
    have hw := h w (List.mem_cons_self w ws)
    show ((if passFailed (fetch_posts_with_context remote (known_posts w)
        (known_threads w) w (rss_entries w)) then _ else _) :
      List (String × List TraceEntry)).map Prod.fst = w :: ws
    rw [if_neg (by simp [hw])]
    show w :: (get_new_posts remote known_posts known_threads rss_entries
        ws).map Prod.fst = w :: ws
    rw [ih (fun w' hw' => h w' (List.mem_cons_of_mem w hw'))]

theorem get_new_posts_visits_each_wiki_witness :
    (get_new_posts exRemote (fun _ => ["p1"]) (fun _ => [])
        (fun _ => [("t1", "p1")]) ["w1", "w2"]).map Prod.fst
      = ["w1", "w2"] :=
  get_new_posts_visits_each_wiki exRemote (fun _ => ["p1"]) (fun _ => [])
    (fun _ => [("t1", "p1")]) ["w1", "w2"] (by decide)

/-- C6 (counterexample): two supported wikis, and a remote that raises
mid-stream during wiki `w1`'s pass (both wikis have one planned
full-thread task on `t1`).  The failure propagates out of the loop:
`w2`'s pass never runs, contradicting the claim that one site's failure
does not prevent the remaining sites' passes. -/
theorem wiki_failure_stops_later_wikis :
    (get_new_posts exFailRemote (fun _ => ["p1"]) (fun _ => [])
        (fun _ => [("t1", "p1")]) ["w1", "w2"]).map Prod.fst
      = ["w1"] := by
  decide

/-- C7: within one site's pass, once a post id has been recorded by any
executed task — its id appears in the tail of that task's remote stream,
hence is appended to the posts seen-list — every later task in the trace
whose post id is that post is answered `true` by `shouldSkip` and is
skipped, regardless of which thread that later task targets. -/
theorem pass_skips_post_after_seen (remote : Remote) (wiki_id P : String)
    (new_thread_ids : List String) (new_posts : List (String × String))
    (i j : Nat) (ei ej : TraceEntry) (hij : i < j)
    (hi : (runTasks remote wiki_id (plan new_thread_ids new_posts)
        initState)[i]? = some ei)
    (hj : (runTasks remote wiki_id (plan new_thread_ids new_posts)
        initState)[j]? = some ej)
    (hexec : ei.status = TaskStatus.executed)
    (hfetched : P ∈ tailIds (remote wiki_id ei.task.1 ei.task.2).1)
    (htarget : ej.task.2 = some P) :
    shouldSkip ej.task ej.stateBefore = true
    ∧ ej.status = TaskStatus.skipped :=
  runTasks_post_blocks remote wiki_id P
    (plan new_thread_ids new_posts) initState i j ei ej hij hi hj
    hexec hfetched htarget

theorem pass_skips_post_after_seen_witness :
    shouldSkip exSkipEntryPost.task exSkipEntryPost.stateBefore = true
    ∧ exSkipEntryPost.status = TaskStatus.skipped :=
  pass_skips_post_after_seen exRemote "w" "p9" ["t1"]
    [("t1", "pa"), ("t2", "p9")] 0 1 exExecEntry exSkipEntryPost
    (by decide) (by decide) (by decide) (by decide) (by decide) (by decide)

/-- C8: executing a non-skipped task whose remote stream yields `x :: xs`
without failing: the first element `x` is persisted exactly once, as
thread metadata via `store_thread`, heading the write list; it is never
written via `store_post` and contributes nothing to the posts seen-list;
every element of the tail `xs` is written via `store_post` and its id
appended to the posts seen-list; and the task's thread id is appended to
the full-thread seen-list iff the task's post id is null. -/
theorem executeTask_stream_spec (remote : Remote) (w : String)
    (t : CrawlTask) (st : SeenState) (x : Item) (xs : List Item)
    (hskip : shouldSkip t st = false)
    (hr : remote w t.1 t.2 = (x :: xs, false)) :
    executeTask remote w t st
      = (StoreEvent.store_thread w (x.category_id, x.category_name)
            (t.1, x.title, x.creator_username, x.created_timestamp)
          :: xs.map StoreEvent.store_post,
        false,
        ⟨st.posts_already_seen ++ xs.map Item.id,
          if t.2.isNone then st.full_threads_already_seen ++ [t.1]
          else st.full_threads_already_seen⟩)
    ∧ (((executeTask remote w t st).2.2).full_threads_already_seen
          = st.full_threads_already_seen ++ [t.1] ↔ t.2 = none) := by
  have heq : executeTask remote w t st
      = (StoreEvent.store_thread w (x.category_id, x.category_name)
            (t.1, x.title, x.creator_username, x.created_timestamp)
          :: xs.map StoreEvent.store_post,
        false,
        ⟨st.posts_already_seen ++ xs.map Item.id,
          if t.2.isNone then st.full_threads_already_seen ++ [t.1]
          else st.full_threads_already_seen⟩) := by
    unfold executeTask
    rw [hr]
    cases h : t.2.isNone <;> simp [h, processItems, tailIds]
  refine ⟨heq, ?_⟩
  rw [heq]
  rcases h2 : t.2 with _ | p
  · simp [h2]
  · simp only [h2, Option.isNone_some, if_neg Bool.false_ne_true]
    constructor
    · intro habs
      exact absurd ((List.self_eq_append_right).mp habs) (by simp)
    · intro habs
      exact Option.noConfusion habs

theorem executeTask_stream_spec_witness :
    executeTask exRemote "w" ("t1", none) initState
      = (StoreEvent.store_thread "w"
            (exMeta.category_id, exMeta.category_name)
            ("t1", exMeta.title, exMeta.creator_username,
              exMeta.created_timestamp)
          :: [exPostA, exPostB].map StoreEvent.store_post,
        false,
        ⟨initState.posts_already_seen ++ [exPostA, exPostB].map Item.id,
          if (none : Option String).isNone then
            initState.full_threads_already_seen ++ ["t1"]
          else initState.full_threads_already_seen⟩) :=
  (executeTask_stream_spec exRemote "w" ("t1", none) initState exMeta
    [exPostA, exPostB] (by decide) (by decide)).1

/-- C9 (counterexample): the entry list `[("t1","p1"), ("t1","p2")]` is
deduplicated — its entries are pairwise distinct and so are its post
ids — yet with thread `t1` new, the planner emits two tasks with a null
post id for `t1`. -/
theorem plan_emits_duplicate_null_tasks :
    ([("t1", "p1"), ("t1", "p2")] : List (String × String)).Nodup
    ∧ (["p1", "p2"] : List String).Nodup
    ∧ plan ["t1"] [("t1", "p1"), ("t1", "p2")]
        = [("t1", none), ("t1", none)] := by
  decide

/-- C9 (amended): if the entries' thread ids are pairwise distinct, then
for every set of new thread ids the planner never emits two tasks with a
null post id for the same thread id.  Deduplicating the entry list by
entry or by post id is not enough: see the counterexample. -/
theorem plan_null_tasks_unique_threads (new_thread_ids : List String)
    (new_posts : List (String × String))
    (h : (new_posts.map Prod.fst).Nodup) :
    (plan new_thread_ids new_posts).Pairwise
      (fun a b => a.2 = none → b.2 = none → a.1 ≠ b.1) := by
  have hfst : new_posts.Pairwise (fun a b => a.1 ≠ b.1) :=
    List.pairwise_map.mp h
  have htasks : (tasksOf new_thread_ids new_posts).Pairwise
      (fun a b => a.1 ≠ b.1) := by
    unfold tasksOf
    rw [List.pairwise_map]
    exact hfst
  have hA : (List.filter (fun t => !t.2.isSome)
      (tasksOf new_thread_ids new_posts)).Pairwise
        (fun a b => a.1 ≠ b.1) :=
    List.Pairwise.sublist (List.filter_sublist _) htasks
  have hB : (List.filter (fun t => t.2.isSome)
      (tasksOf new_thread_ids new_posts)).Pairwise
        (fun a b => a.1 ≠ b.1) :=
    List.Pairwise.sublist (List.filter_sublist _) htasks
  rw [plan, List.pairwise_append]
  refine ⟨hA.imp (fun hne _ _ => hne), hB.imp (fun hne _ _ => hne), ?_⟩
  intro a _ b hb _ hbnone
  have hbs := List.of_mem_filter hb
  rw [hbnone] at hbs
  exact absurd hbs (by simp)

theorem plan_null_tasks_unique_threads_witness :
    (plan ["t1"] [("t1", "p1"), ("t2", "p2")]).Pairwise
      (fun a b => a.2 = none → b.2 = none → a.1 ≠ b.1) :=
  plan_null_tasks_unique_threads ["t1"] [("t1", "p1"), ("t2", "p2")]
    (by decide)

/-- C10: `try_cache` calls `store` at most once; it calls `store` with
the getter's return value exactly when the getter returned normally with
a value different from `do_not_store`; and when the getter raises a
caught exception, or returns a value equal to `do_not_store`, no store
call is made and `try_cache` returns normally, propagating nothing. -/
theorem try_cache_spec {α ε : Type} [DecidableEq α]
    (get : Except ε α) (do_not_store : α) (catches : ε → Bool) :
    (try_cache get do_not_store catches).1.length ≤ 1
    ∧ (∀ v : α, (try_cache get do_not_store catches).1 = [v]
        ↔ (get = Except.ok v ∧ v ≠ do_not_store))
    ∧ (∀ e : ε, get = Except.error e → catches e = true →
        try_cache get do_not_store catches = ([], none))
    ∧ (get = Except.ok do_not_store →
        try_cache get do_not_store catches = ([], none)) := by
  cases get with
  | error e =>
    refine ⟨?_, ?_, ?_, ?_⟩
    · by_cases hc : catches e <;> simp [try_cache, hc]
    · intro v
      by_cases hc : catches e <;> simp [try_cache, hc]
    · intro e' he hc
      cases Except.error.inj he
      simp [try_cache, hc]
    · intro habs
      exact Except.noConfusion habs
  | ok v =>
    refine ⟨?_, ?_, ?_, ?_⟩
    · by_cases hv : v = do_not_store <;> simp [try_cache, hv]
    · intro v'
      by_cases hv : v = do_not_store
      · constructor
        · intro hl
          rw [hv] at hl
          simp only [try_cache,
            if_neg (by simp : ¬(do_not_store ≠ do_not_store))] at hl
          exact absurd hl (by simp)
        · rintro ⟨hok, hne⟩
          obtain rfl := Except.ok.inj hok
          exact absurd hv hne
      · constructor
        · intro hl
          simp only [try_cache, if_pos (show v ≠ do_not_store from hv)] at hl
          obtain ⟨rfl, -⟩ := List.cons.inj hl
          exact ⟨rfl, hv⟩
        · rintro ⟨hok, hne⟩
          obtain rfl := Except.ok.inj hok
          simp [try_cache, hv]
    · intro e' habs
      exact Except.noConfusion habs
    · intro hok
      cases Except.ok.inj hok
      simp [try_cache]

theorem try_cache_spec_witness :
    (try_cache (Except.ok 5 : Except Unit Nat) 0 (fun _ => true)).1
      = [5] :=
  ((try_cache_spec (Except.ok 5) 0 (fun _ => true)).2.1 5).mpr
    ⟨rfl, by decide⟩

end Notifier
